import Mathlib

/-!
# Verification of the slimgym parser and serializer

Shallow embedding of the slimgym configuration-format engine:
the decoder (`parse`, `parseValue`, `parseArrayItems`, the multi-line
array and block-string collectors), the encoder (`slimgify`), the
`ParseError` type, and the `toJSON` proxy wrapper, together with
theorems settling the frozen claims about them.

Conventions:
* Lines and tokens are `List Char` (the source walks the input string by
  char codes); `Val.str` and error payloads hold `String`.
* Host builtins used by the source but not part of the repository
  (`Number()`, `new Date()`, `fs.readFileSync`, `path.resolve`) are
  modelled from the specification and marked `Modelled from the spec:`.
* Objects are insertion-ordered association lists with unique keys; the
  source's in-place mutation through stack references is modelled by
  frames that record the key a child object was attached under and are
  folded back into the parent when popped.
-/

namespace Slimgym

/-! ## Data model (src/types.ts `NodeValue`) -/

/-- The tree of values the decoder produces: `null`, `undefined`,
booleans, numbers, strings, `Date`s (epoch milliseconds), arrays and
insertion-ordered objects. -/
inductive Val : Type where
  | null : Val
  | undef : Val
  | bool (b : Bool) : Val
  | num (q : Rat) : Val
  | str (s : String) : Val
  | date (ms : Int) : Val
  | arr (xs : List Val) : Val
  | obj (fs : List (String × Val)) : Val

/-- Fields of an object: insertion-ordered key/value pairs. -/
abbrev Fields := List (String × Val)

/-- The check `Object.prototype.hasOwnProperty.call(parent, key)`. -/
def hasKey (fs : Fields) (k : String) : Bool :=
  fs.any (fun p => p.1 == k)

/-- Read access `parent[key]` (first binding; keys are unique). -/
def lookupKey : Fields → String → Option Val
  | [], _ => none
  | (k', v) :: rest, k => if k' == k then some v else lookupKey rest k

/-- Assignment `parent[key] = v`: on an existing key JS keeps the key's original
insertion position. -/
def setKey : Fields → String → Val → Fields
  | [], k, v => [(k, v)]
  | (k', w) :: rest, k, v =>
    if k' == k then (k, v) :: rest else (k', w) :: setKey rest k v

/-! ## Error type (src/types.ts `ParseError`) -/

/-- The `ParseError` data: `message` is the rendered `Error.message`; `lineNumber`
is the stored 0-based line index; `line` the raw offending line. -/
structure PError where
  message : String
  lineNumber : Option Nat
  line : Option String
deriving DecidableEq

/-- The `ParseError` constructor: when both position arguments are
present the message is suffixed with the 1-based line number and the raw
line. -/
def mkPError (msg : String) (ln : Option Nat) (line : Option String) : PError :=
  match ln, line with
  | some n, some l =>
    ⟨msg ++ " at line " ++ toString (n + 1) ++ ": \"" ++ l ++ "\"", some n, some l⟩
  | _, _ => ⟨msg, ln, line⟩

/-! ## Character and line helpers -/

/-- ASCII decimal digit (char codes 48–57). -/
def isDigitC (c : Char) : Bool := '0' ≤ c && c ≤ '9'

/-- A key character per the regex `[a-zA-Z0-9_-]`. -/
def isKeyChar (c : Char) : Bool :=
  c.isAlpha || isDigitC c || c == '_' || c == '-'

/-- The key regex `^[a-zA-Z0-9_-]+$`. -/
def validKey (cs : List Char) : Bool :=
  !cs.isEmpty && cs.all isKeyChar

/-- Leading U+0020 count (the decoder's indent). -/
def countIndent : List Char → Nat
  | ' ' :: rest => countIndent rest + 1
  | _ => 0

/-- JS whitespace removed by `String.prototype.trim`. -/
def isJsWs (c : Char) : Bool :=
  c == ' ' || c == '\t' || c == '\n' || c == '\r'

/-- Left trim. -/
def trimLeftC (cs : List Char) : List Char := cs.dropWhile isJsWs

/-- The trim of `String.prototype.trim`. -/
def trimC (cs : List Char) : List Char :=
  ((cs.dropWhile isJsWs).reverse.dropWhile isJsWs).reverse

/-- The input split at `'\n'`, mirroring the decoder's
`indexOf('\n')` line framing (an input without a final newline yields a
final fragment; a trailing newline yields a final empty line, which the
decoder skips). -/
def splitLinesC : List Char → List (List Char)
  | [] => [[]]
  | '\n' :: rest => [] :: splitLinesC rest
  | c :: rest =>
    match splitLinesC rest with
    | l :: ls => (c :: l) :: ls
    | [] => [[c]]

/-- Index of the last occurrence of `c`, mirroring the backwards scan
for the closing `]` of an inline array. -/
def lastIdxOf (c : Char) : List Char → Option Nat
  | [] => none
  | x :: xs =>
    match lastIdxOf c xs with
    | some j => some (j + 1)
    | none => if x == c then some 0 else none

/-- Lines joined with `'\n'` (no trailing newline), as
`blockLines.join('\n')`. -/
def joinNl : List (List Char) → List Char
  | [] => []
  | [l] => l
  | l :: rest => l ++ '\n' :: joinNl rest

/-- Digits to a natural number. -/
def digitsToNat (cs : List Char) : Nat :=
  cs.foldl (fun acc c => acc * 10 + (c.toNat - 48)) 0

/-! ## Host `Number()` model -/

/-- Stage: parse a nonempty digit run, returning its value, its length
and the rest. -/
def takeDigits (cs : List Char) : Option (Nat × Nat × List Char) :=
  let ds := cs.takeWhile isDigitC
  if ds.isEmpty then none
  else some (digitsToNat ds, ds.length, cs.drop ds.length)

/-- The rational `±mant · 10^(e − scale)`, the value of a decimal
literal with integer mantissa `mant`, `scale` fractional digits and
exponent `e`. -/
def decValue (neg : Bool) (mant : Nat) (scale : Nat) (e : Int) : Rat :=
  let m : Int := if neg then -(mant : Int) else (mant : Int)
  let ex : Int := e - (scale : Int)
  if 0 ≤ ex then Rat.divInt (m * 10 ^ ex.toNat) 1
  else Rat.divInt m (10 ^ (-ex).toNat)

/-- Modelled from the spec: the host `Number(token)` conversion used by
the scalar classifier, restricted to the spec §3 number grammar
`[+-]?digits(.digits)?([eE][+-]?digits)?`; `none` where the host yields
`NaN`.  (Host extras such as hex literals, `Infinity`, or a bare
trailing `.` are outside the spec grammar and not modelled.) -/
def jsNumber (cs : List Char) : Option Rat :=
  let (neg, cs1) : Bool × List Char :=
    match cs with
    | '+' :: r => (false, r)
    | '-' :: r => (true, r)
    | r => (false, r)
  match takeDigits cs1 with
  | none => none
  | some (ip, _, cs2) =>
    let withFrac : Option (Nat × Nat × List Char) :=
      match cs2 with
      | '.' :: r =>
        match takeDigits r with
        | none => none
        | some (fp, fl, cs3) => some (ip * 10 ^ fl + fp, fl, cs3)
      | _ => some (ip, 0, cs2)
    match withFrac with
    | none => none
    | some (mant, scale, cs4) =>
      match cs4 with
      | [] => some (decValue neg mant scale 0)
      | e :: r =>
        if e == 'e' || e == 'E' then
          let (esgn, r1) : Bool × List Char :=
            match r with
            | '+' :: r' => (false, r')
            | '-' :: r' => (true, r')
            | r' => (false, r')
          match takeDigits r1 with
          | none => none
          | some (ev, _, cs5) =>
            if cs5.isEmpty then
              some (decValue neg mant scale (if esgn then -(ev : Int) else (ev : Int)))
            else none
        else none

/-! ## Host `new Date()` model -/

/-- Broken-down date-time components with a UTC offset in minutes. -/
structure DateC where
  y : Nat
  mo : Nat
  d : Nat
  h : Nat
  mi : Nat
  s : Nat
  ms : Nat
  tzMin : Int
deriving DecidableEq

/-- Leap year. -/
def isLeap (y : Nat) : Bool :=
  y % 4 == 0 && (y % 100 != 0 || y % 400 == 0)

/-- Days in a month. -/
def daysInMonth (y mo : Nat) : Nat :=
  if mo == 2 then (if isLeap y then 29 else 28)
  else if mo == 4 || mo == 6 || mo == 9 || mo == 11 then 30
  else 31

/-- Time-of-day tail of the date grammar:
`HH:MM(:SS(.fff)?)?(Z|±HH:MM)?`. -/
def timeGrammar (y mo d : Nat) : List Char → Option DateC
  | h1 :: h2 :: ':' :: n1 :: n2 :: rest =>
    if isDigitC h1 && isDigitC h2 && isDigitC n1 && isDigitC n2 then
      let h := digitsToNat [h1, h2]
      let mi := digitsToNat [n1, n2]
      let secPart : Option (Nat × Nat × List Char) :=
        match rest with
        | ':' :: s1 :: s2 :: rest2 =>
          if isDigitC s1 && isDigitC s2 then
            match rest2 with
            | '.' :: rest3 =>
              let fd := rest3.takeWhile isDigitC
              if fd.isEmpty || fd.length > 3 then none
              else some (digitsToNat [s1, s2],
                         digitsToNat fd * 10 ^ (3 - fd.length),
                         rest3.drop fd.length)
            | _ => some (digitsToNat [s1, s2], 0, rest2)
          else none
        | _ => some (0, 0, rest)
      match secPart with
      | none => none
      | some (s, msv, tzrest) =>
        match tzrest with
        | [] => some ⟨y, mo, d, h, mi, s, msv, 0⟩
        | ['Z'] => some ⟨y, mo, d, h, mi, s, msv, 0⟩
        | sg :: o1 :: o2 :: ':' :: o3 :: o4 :: [] =>
          if (sg == '+' || sg == '-') && isDigitC o1 && isDigitC o2 &&
              isDigitC o3 && isDigitC o4 then
            let mins : Int := digitsToNat [o1, o2] * 60 + digitsToNat [o3, o4]
            some ⟨y, mo, d, h, mi, s, msv, if sg == '-' then -mins else mins⟩
          else none
        | _ => none
    else none
  | _ => none

/-- Modelled from the spec: syntactic acceptance of the host
`new Date(token)`, per the spec §3 date grammar `YYYY-MM-DD` optionally
followed by `[T ]HH:MM(:SS(.fff)?)?(Z|±HH:MM)?`.  A date-time without an
offset is host-local time; the local zone is modelled as UTC. -/
def dateGrammar : List Char → Option DateC
  | y1 :: y2 :: y3 :: y4 :: '-' :: m1 :: m2 :: '-' :: d1 :: d2 :: rest =>
    if isDigitC y1 && isDigitC y2 && isDigitC y3 && isDigitC y4 &&
        isDigitC m1 && isDigitC m2 && isDigitC d1 && isDigitC d2 then
      let y := digitsToNat [y1, y2, y3, y4]
      let mo := digitsToNat [m1, m2]
      let d := digitsToNat [d1, d2]
      match rest with
      | [] => some ⟨y, mo, d, 0, 0, 0, 0, 0⟩
      | sep :: tr =>
        if sep == 'T' || sep == ' ' then timeGrammar y mo d tr else none
    else none
  | _ => none

/-- Component ranges that make the instant valid. -/
def dcValid (c : DateC) : Bool :=
  1 ≤ c.mo && c.mo ≤ 12 && 1 ≤ c.d && c.d ≤ daysInMonth c.y c.mo &&
    c.h ≤ 23 && c.mi ≤ 59 && c.s ≤ 59

/-- Days from the civil epoch 1970-01-01 (Gregorian, proleptic). -/
def daysFromCivil (y mo d : Int) : Int :=
  let y' := y - (if mo ≤ 2 then 1 else 0)
  let era := y'.fdiv 400
  let yoe := y' - era * 400
  let mp := mo + (if mo > 2 then -3 else 9)
  let doy := (153 * mp + 2).fdiv 5 + d - 1
  let doe := yoe * 365 + yoe.fdiv 4 - yoe.fdiv 100 + doy
  era * 146097 + doe - 719468

/-- Epoch milliseconds of valid components. -/
def dcToMs (c : DateC) : Int :=
  daysFromCivil c.y c.mo c.d * 86400000 +
    (c.h * 3600000 + c.mi * 60000 + c.s * 1000 + c.ms : Nat) -
    c.tzMin * 60000

/-- Modelled from the spec: `new Date(token).getTime()` when the token
is grammar-conformant and a valid instant, else `none` (host `NaN`). -/
def jsDate (cs : List Char) : Option Int :=
  match dateGrammar cs with
  | some c => if dcValid c then some (dcToMs c) else none
  | none => none

/-- Civil date from days since 1970-01-01. -/
def civilFromDays (days : Int) : Int × Nat × Nat :=
  let z := days + 719468
  let era := z.fdiv 146097
  let doe := (z - era * 146097).toNat
  let yoe := (doe - doe / 1460 + doe / 36524 - doe / 146096) / 365
  let y : Int := yoe + era * 400
  let doy := doe - (365 * yoe + yoe / 4 - yoe / 100)
  let mp := (5 * doy + 2) / 153
  let d := doy - (153 * mp + 2) / 5 + 1
  let mo := if mp < 10 then mp + 3 else mp - 9
  (y + (if mo ≤ 2 then 1 else 0), mo, d)

/-- Zero-padded decimal of width `w`. -/
def padNat (w n : Nat) : String :=
  let s := toString n
  if s.length < w then String.mk (List.replicate (w - s.length) '0') ++ s else s

/-- Rendering of `Date.prototype.toISOString`: UTC, millisecond precision, `Z`
suffix. -/
def toISOString (ms : Int) : String :=
  let day := ms.fdiv 86400000
  let rem := (ms - day * 86400000).toNat
  let (y, mo, d) := civilFromDays day
  let ys :=
    if 0 ≤ y then padNat 4 y.toNat
    else "-" ++ padNat 6 (-y).toNat
  ys ++ "-" ++ padNat 2 mo ++ "-" ++ padNat 2 d ++ "T" ++
    padNat 2 (rem / 3600000) ++ ":" ++ padNat 2 (rem / 60000 % 60) ++ ":" ++
    padNat 2 (rem / 1000 % 60) ++ "." ++ padNat 3 (rem % 1000) ++ "Z"

/-! ## Quoted-string unescaping (`parseValue`, quoted branch) -/

/-- The characters the unescape regex `\\(["'nrt\\])` recognises after a
backslash. -/
def escClass (c : Char) : Bool :=
  c == '"' || c == '\'' || c == 'n' || c == 'r' || c == 't' || c == '\\'

/-- Replacement for a recognised escape character. -/
def escMap (c : Char) : Char :=
  match c with
  | 'n' => '\n'
  | 'r' => '\r'
  | 't' => '\t'
  | c => c

/-- The global regex replace `\\(["'nrt\\])` → mapped character: a
backslash followed by a character outside the class is left verbatim. -/
def unescape : List Char → List Char
  | [] => []
  | '\\' :: c :: rest =>
    if escClass c then escMap c :: unescape rest
    else '\\' :: unescape (c :: rest)
  | c :: rest => c :: unescape rest

/-! ## Decoder stack -/

/-- A stack frame: the indent at which the object was opened, the key it
was attached under in its parent, and its fields so far.  The source
keeps live references into the tree; here a popped frame is folded back
into its parent. -/
structure Frame where
  indent : Int
  key : String
  obj : Fields

/-- Fold a finished child object back into its parent's fields.  The
source mutates the child through the reference stored at attach time:
directly at `parent[key]` when it was stored bare, or as the last
element when it was wrapped or appended into an array. -/
def reattach (parent : Fields) (k : String) (child : Fields) : Fields :=
  match lookupKey parent k with
  | some (.arr xs) => setKey parent k (.arr (xs.dropLast ++ [.obj child]))
  | _ => setKey parent k (.obj child)

/-- The loop `while (stack.length > 1 && indent <= stack[top].indent) stack.pop()`,
folding each popped frame into the frame below. -/
def popFrames (ind : Int) (f : Frame) : List Frame → Frame × List Frame
  | [] => (f, [])
  | g :: rest =>
    if ind ≤ f.indent then
      popFrames ind { g with obj := reattach g.obj f.key f.obj } rest
    else (f, g :: rest)

/-- Fold the whole stack at end of input, yielding the root fields. -/
def finalizeStack (f : Frame) : List Frame → Fields
  | [] => f.obj
  | g :: rest => finalizeStack { g with obj := reattach g.obj f.key f.obj } rest

/-- The repeated-key handling of the decoder's attach step: an existing
array value gets the new value appended; any other existing value is
replaced by the two-element array; a fresh key stores the value bare, or
as a singleton array under the `[]` prefix. -/
def attachValue (parent : Fields) (key : String) (forceArray : Bool) (v : Val) : Fields :=
  if hasKey parent key then
    match lookupKey parent key with
    | some (.arr xs) => setKey parent key (.arr (xs ++ [v]))
    | some w => setKey parent key (.arr [w, v])
    | none => parent
  else if forceArray then parent ++ [(key, .arr [v])]
  else parent ++ [(key, v)]

/-! ## Skip rule and block-string collector -/

/-- A line's first-non-space content starts a comment: `#` followed by a
space or end of line. -/
def isCommentC : List Char → Bool
  | '#' :: rest => rest.isEmpty || rest.head? == some ' '
  | _ => false

/-- The block-string collection loop: body lines after the `"""` header.
`header` is the indent of the line carrying the opening `"""`; the block
indent is the indent of the first content line; a left-trimmed line that
is exactly `"""` at indent ≤ `header` terminates; EOF is tolerated.
Returns the collected lines, the next line index and the remaining
lines. -/
def collectBlock (header : Nat) (bIndent : Option Nat) (acc : List (List Char))
    (idx : Nat) : List (List Char) → List (List Char) × Nat × List (List Char)
  | [] => (acc, idx, [])
  | line :: rest =>
    let bl := countIndent line
    let content := line.dropWhile (· == ' ')
    if content.isEmpty then
      match bIndent with
      | some _ => collectBlock header bIndent (acc ++ [[]]) (idx + 1) rest
      | none => collectBlock header none acc (idx + 1) rest
    else if bl ≤ header && content == ['"', '"', '"'] then (acc, idx + 1, rest)
    else
      let b := bIndent.getD bl
      let piece := if bl ≥ b then line.drop b else line.drop bl
      collectBlock header (some b) (acc ++ [piece]) (idx + 1) rest

/-! ## Multi-line array collector -/

/-- The multi-line array loop: collects the raw item tokens of an array
whose `[` had no `]` on its line.  Blank and comment lines are skipped;
a first-non-space `]` at indent ≤ `aIdent` closes the array (the outer
decoder resumes on the next line); any other line at indent ≤ `aIdent`
means the array is unclosed (`none`); an item that left-trims to `"""`
starts an in-array block string collected at the item line's indent.
`fuel` bounds the loop (one unit per input line suffices). -/
def collectML (fuel : Nat) (aIdent : Nat) (items : List (List Char)) (idx : Nat)
    (lines : List (List Char)) : Option (List (List Char) × Nat × List (List Char)) :=
  match fuel with
  | 0 => none
  | fuel + 1 =>
    match lines with
    | [] => none
    | line :: rest =>
      let k := countIndent line
      let content := line.dropWhile (· == ' ')
      if content.isEmpty || isCommentC content then
        collectML fuel aIdent items (idx + 1) rest
      else if content.head? == some ']' && k ≤ aIdent then
        some (items, idx + 1, rest)
      else if k ≤ aIdent then none
      else
        let item := trimC content
        if item == ['"', '"', '"'] then
          let (bl, idx', rest') := collectBlock k none [] (idx + 1) rest
          collectML fuel aIdent (items ++ [joinNl bl]) idx' rest'
        else
          let cleaned := if item.getLast? == some ',' then trimC item.dropLast else item
          if cleaned.isEmpty then collectML fuel aIdent items (idx + 1) rest
          else collectML fuel aIdent (items ++ [cleaned]) (idx + 1) rest

/-! ## Inline array lexer (`parseArrayItems`) -/

/-- Flush a pending item: trim, and classify nonempty text through the
value parser, appending to the current array. -/
def flushItem (vp : List Char → Except PError Val) (cur : List Val)
    (pending : List Char) : Except PError (List Val) :=
  let t := trimC pending
  if t.isEmpty then .ok cur
  else
    match vp t with
    | .error e => .error e
    | .ok v => .ok (cur ++ [v])

/-- The inline array body walk: character by character with a bracket
stack (`cur` is the innermost open array, `outer` the enclosing ones), a
pending-item accumulator, and in-string state where the closing quote
must not be preceded by a backslash. -/
def arrayItemsGo (vp : List Char → Except PError Val) (lnE : Option Nat)
    (lineE : Option String) (cur : List Val) (outer : List (List Val))
    (pending : List Char) (inStr : Bool) (sChar : Char) (prev : Char) :
    List Char → Except PError (List Val)
  | [] =>
    if inStr then .error (mkPError "Unclosed string in array" lnE lineE)
    else
      match flushItem vp cur pending with
      | .error e => .error e
      | .ok cur' =>
        if outer.isEmpty then .ok cur'
        else .error (mkPError "Unclosed array: missing closing bracket \"]\"" lnE lineE)
  | c :: rest =>
    if inStr then
      if c == sChar && prev != '\\' then
        arrayItemsGo vp lnE lineE cur outer (pending ++ [c]) false sChar c rest
      else
        arrayItemsGo vp lnE lineE cur outer (pending ++ [c]) true sChar c rest
    else if c == '[' then
      match flushItem vp cur pending with
      | .error e => .error e
      | .ok cur' => arrayItemsGo vp lnE lineE [] (cur' :: outer) [] false sChar c rest
    else if c == ']' then
      match flushItem vp cur pending with
      | .error e => .error e
      | .ok cur' =>
        match outer with
        | [] => .error (mkPError "Unexpected closing bracket \"]\" in array" lnE lineE)
        | p :: outer' =>
          arrayItemsGo vp lnE lineE (p ++ [.arr cur']) outer' [] false sChar c rest
    else if c == ',' then
      match flushItem vp cur pending with
      | .error e => .error e
      | .ok cur' => arrayItemsGo vp lnE lineE cur' outer [] false sChar c rest
    else if c == '"' || c == '\'' then
      arrayItemsGo vp lnE lineE cur outer (pending ++ [c]) true c c rest
    else
      arrayItemsGo vp lnE lineE cur outer (pending ++ [c]) false sChar c rest

/-- The lexer `parseArrayItems`: an inline array body into classified items. -/
def parseArrayItems (vp : List Char → Except PError Val) (lnE : Option Nat)
    (lineE : Option String) (token : List Char) : Except PError (List Val) :=
  arrayItemsGo vp lnE lineE [] [] [] false ' ' ' ' token

/-- Classify a list of collected raw items, propagating the first
error. -/
def parseItems (vp : List Char → Except PError Val) :
    List (List Char) → Except PError (List Val)
  | [] => .ok []
  | t :: ts =>
    match vp t with
    | .error e => .error e
    | .ok v =>
      match parseItems vp ts with
      | .error e => .error e
      | .ok vs => .ok (v :: vs)

/-! ## Proxy traps (`createParsedConfig`) -/

/-- The proxy `ownKeys` trap: `Object.keys(target)`. -/
def proxyOwnKeys (fs : Fields) : List String :=
  fs.map Prod.fst

/-- A property descriptor (the `value` slot omitted). -/
structure PropDesc where
  enumerable : Bool
  configurable : Bool
  writable : Bool
deriving DecidableEq

/-- The proxy `getOwnPropertyDescriptor` trap: a non-enumerable,
non-writable, configurable descriptor for `toJSON`; the target's plain
data-property descriptor otherwise. -/
def proxyDescr (fs : Fields) (p : String) : Option PropDesc :=
  if p == "toJSON" then some ⟨false, true, false⟩
  else if hasKey fs p then some ⟨true, true, true⟩
  else none

/-- The call `Object.keys(proxy)`: the `ownKeys` trap filtered by the
`enumerable` bit of each descriptor reported by the proxy. -/
def jsObjectKeys (fs : Fields) : List String :=
  (proxyOwnKeys fs).filter (fun k =>
    match proxyDescr fs k with
    | some d => d.enumerable
    | none => false)

/-! ## Filesystem and path model (import resolver hosts) -/

/-- Modelled from the spec: the `read_file(path) -> text` capability of
the import feature; an association of absolute resolved paths to file
contents. -/
abbrev FileSys := List (String × String)

/-- File lookup by resolved path. -/
def lookupFile : FileSys → String → Option String
  | [], _ => none
  | (p, c) :: rest, q => if p == q then some c else lookupFile rest q

/-- Modelled from the spec: host `path.resolve(baseDir, p)` — an
absolute path is taken verbatim, a relative one is resolved against
`baseDir` (`.`/`..` normalization omitted). -/
def resolvePath (baseDir p : String) : String :=
  if p.data.head? == some '/' then p else baseDir ++ "/" ++ p

/-- Modelled from the spec: host `path.dirname`. -/
def dirnameStr (p : String) : String :=
  match lastIdxOf '/' p.data with
  | none => "."
  | some 0 => "/"
  | some j => String.mk (p.data.take j)

/-- Modelled from the spec: the host I/O failure message raised when an
imported file cannot be read. -/
def enoentMsg (abs : String) : String :=
  "ENOENT: no such file or directory, open '" ++ abs ++ "'"

/-- Strip matching outer quotes from an import path token. -/
def stripQuotes (cs : List Char) : List Char :=
  if (cs.head? == some '"' && cs.getLast? == some '"') ||
      (cs.head? == some '\'' && cs.getLast? == some '\'') then
    (cs.drop 1).dropLast
  else cs

/-- The `@@` unwrap step.  The imported root is read through its proxy:
`Object.keys(parsed)` filters each own key by the descriptor the proxy
reports, so a root binding literally named `toJSON` is dropped from the
key count (the proxy reports it non-enumerable).  Exactly one key must
remain; its value, read through the `get` trap, must be an array, which
is returned. -/
def importUnwrap (fields : Fields) : Except String Val :=
  let keys := jsObjectKeys fields
  match keys with
  | [k] =>
    match lookupKey fields k with
    | some (.arr xs) => .ok (.arr xs)
    | _ => .error ("Imported file's root key \"" ++ k ++ "\" must be an array to use \"@@\" syntax")
  | _ =>
    .error ("Imported file must have exactly one root key to use \"@@\" syntax, found " ++
      toString keys.length ++ " keys")

/-! ## The decoder -/

mutual

/-- Reading via `readFileSync` and recursive `parse` of an imported file against the
directory of the resolved path; failures surface as the raw exception
message the import site wraps. -/
def importResolve (fuel : Nat) (fs : FileSys) (baseDir : String)
    (cleanPath : String) : Except String Fields :=
  match fuel with
  | 0 => .error "Maximum call stack size exceeded"
  | fuel + 1 =>
    let abs := resolvePath baseDir cleanPath
    match lookupFile fs abs with
    | none => .error (enoentMsg abs)
    | some content =>
      match parseRoot fuel fs (dirnameStr abs) content.data with
      | .error e => .error e.message
      | .ok fields => .ok fields

/-- The scalar classifier `parseValue`: literals, import directives,
numbers, dates, quoted strings with escape decoding, else the plain
token. -/
def parseValue (fuel : Nat) (fs : FileSys) (baseDir : String) (token : List Char)
    (lnE : Option Nat) (lineE : Option String) : Except PError Val :=
  match fuel with
  | 0 => .error (mkPError "Maximum call stack size exceeded" none none)
  | fuel + 1 =>
    if token == "null".data then .ok .null
    else if token == "undefined".data then .ok .undef
    else if token == "true".data then .ok (.bool true)
    else if token == "false".data then .ok (.bool false)
    else if token.head? == some '@' then
      let rest0 := token.drop 1
      let (isUnwrap, ipath) : Bool × List Char :=
        match rest0 with
        | '@' :: r => (true, r)
        | r => (false, r)
      let cleanPath := String.mk (stripQuotes ipath)
      let res : Except String Val :=
        match importResolve fuel fs baseDir cleanPath with
        | .error m => .error m
        | .ok fields => if isUnwrap then importUnwrap fields else .ok (.obj fields)
      match res with
      | .ok v => .ok v
      | .error m =>
        .error (mkPError ("Failed to import file \"" ++ cleanPath ++ "\": " ++ m) lnE lineE)
    else
      let numOk : Option Rat :=
        match token.head? with
        | some c0 => if isDigitC c0 || c0 == '-' || c0 == '+' then jsNumber token else none
        | none => none
      match numOk with
      | some q => .ok (.num q)
      | none =>
        let dateOk : Option Int :=
          match token.head? with
          | some c0 =>
            if isDigitC c0 && 10 ≤ token.length && token.get? 4 == some '-' then
              jsDate token
            else none
          | none => none
        match dateOk with
        | some ms => .ok (.date ms)
        | none =>
          if (token.head? == some '"' && token.getLast? == some '"') ||
              (token.head? == some '\'' && token.getLast? == some '\'') then
            let inner := (token.drop 1).dropLast
            if inner.contains '\\' then .ok (.str (String.mk (unescape inner)))
            else .ok (.str (String.mk inner))
          else .ok (.str (String.mk token))

/-- The main line loop: indent, skip rules, key extraction and
validation, value dispatch (empty object / inline array / multi-line
array / block string / simple scalar), attachment with repeated-key
merging, and the indent-keyed stack. -/
def parseLines (fuel : Nat) (fs : FileSys) (baseDir : String) (top : Frame)
    (stk : List Frame) (idx : Nat) (lines : List (List Char)) :
    Except PError Fields :=
  match fuel with
  | 0 => .error (mkPError "Maximum call stack size exceeded" none none)
  | fuel + 1 =>
    match lines with
    | [] => .ok (finalizeStack top stk)
    | line :: rest =>
      let ind := countIndent line
      let content := line.dropWhile (· == ' ')
      if content.isEmpty || isCommentC content then
        parseLines fuel fs baseDir top stk (idx + 1) rest
      else
        let rawHead := content.takeWhile (· != ' ')
        let afterKey := content.dropWhile (· != ' ')
        let (forceArray, key) : Bool × List Char :=
          match rawHead with
          | '[' :: ']' :: r => (true, r)
          | r => (false, r)
        if !validKey key then
          .error (mkPError ("Invalid key format: \"" ++ String.mk rawHead ++ "\"")
            (some idx) (some (String.mk line)))
        else
          let keyS := String.mk key
          let vp := afterKey.dropWhile (· == ' ')
          let stepValue : Except PError (Val × Nat × List (List Char)) :=
            match vp with
            | [] => .ok (.obj [], idx + 1, rest)
            | v0 :: vr =>
              if v0 == '[' then
                match lastIdxOf ']' vr with
                | some j =>
                  let body := vr.take j
                  if (trimC body).isEmpty then .ok (.arr [], idx + 1, rest)
                  else
                    match parseArrayItems
                        (fun t => parseValue fuel fs baseDir t (some idx) (some (String.mk line)))
                        (some idx) (some (String.mk line)) body with
                    | .error e => .error e
                    | .ok items => .ok (.arr items, idx + 1, rest)
                | none =>
                  match collectML fuel ind [] (idx + 1) rest with
                  | none =>
                    .error (mkPError "Unclosed array: missing closing bracket \"]\""
                      (some idx) (some (String.mk line)))
                  | some (items, idx', rest') =>
                    match parseItems
                        (fun t => parseValue fuel fs baseDir t (some idx') (some "")) items with
                    | .error e => .error e
                    | .ok vals => .ok (.arr vals, idx', rest')
              else if v0 == '"' && vr.head? == some '"' && (vr.drop 1).head? == some '"' then
                let (bl, idx', rest') := collectBlock ind none [] (idx + 1) rest
                .ok (.str (String.mk (joinNl bl)), idx', rest')
              else
                match parseValue fuel fs baseDir (trimC vp) (some idx) (some (String.mk line)) with
                | .error e => .error e
                | .ok v => .ok (v, idx + 1, rest)
          match stepValue with
          | .error e => .error e
          | .ok (v, idx', rest') =>
            let (top', stk') := popFrames (ind : Int) top stk
            let nf := attachValue top'.obj keyS forceArray v
            match v with
            | .obj vfs =>
              parseLines fuel fs baseDir ⟨(ind : Int), keyS, vfs⟩
                ({ top' with obj := nf } :: stk') idx' rest'
            | _ =>
              parseLines fuel fs baseDir { top' with obj := nf } stk' idx' rest'

/-- The entry `parse`: split into lines, run the line loop from the sentinel root
frame at indent −1. -/
def parseRoot (fuel : Nat) (fs : FileSys) (baseDir : String) (input : List Char) :
    Except PError Fields :=
  match fuel with
  | 0 => .error (mkPError "Maximum call stack size exceeded" none none)
  | fuel + 1 => parseLines fuel fs baseDir ⟨-1, "", []⟩ [] 0 (splitLinesC input)

end

/-- Top-level `parse` on an input without imports: the fuel covers one
unit per line plus the entry steps. -/
def parseTop (input : String) : Except PError Fields :=
  parseRoot (input.length * 2 + 4) [] "/" input.data

/-- The classifier `parseValue` on a single trimmed token, without position info. -/
def parseValueTop (token : String) : Except PError Val :=
  parseValue (token.length + 2) [] "/" token.data none none

/-! ## Encoder (src/slimgify.ts) -/

/-- The `ESCAPE_REGEX`/`ESCAPE_MAP` replacement over `["\\\n\r\t]`. -/
def escapeStringC : List Char → List Char
  | [] => []
  | c :: rest =>
    (if c == '"' then ['\\', '"']
     else if c == '\\' then ['\\', '\\']
     else if c == '\n' then ['\\', 'n']
     else if c == '\r' then ['\\', 'r']
     else if c == '\t' then ['\\', 't']
     else [c]) ++ escapeStringC rest

/-- A string in double quotes with escapes applied. -/
def quoteStr (s : String) : String :=
  "\"" ++ String.mk (escapeStringC s.data) ++ "\""

/-- Multiplicity of `p` in `n` (fuelled division loop). -/
def multAux (p : Nat) : Nat → Nat → Nat
  | 0, _ => 0
  | fuel + 1, n => if n % p == 0 && n != 0 then multAux p fuel (n / p) + 1 else 0

/-- Modelled from the spec: the host `number.toString()` (shortest
round-trippable decimal), realised on the rational model as the exact
minimal decimal expansion.  Every IEEE-754 double is a dyadic rational,
so on host-representable values the denominator always divides a power
of ten; the final fallback branch is unreachable for such values.
(Host exponent notation for magnitudes ≥ 1e21 is not modelled.) -/
def numToString (q : Rat) : String :=
  let sgn := if q.num < 0 then "-" else ""
  let n := q.num.natAbs
  let d := q.den
  if d == 1 then sgn ++ toString n
  else
    let a := multAux 2 d d
    let b := multAux 5 d d
    let k := max a b
    if d == 2 ^ a * 5 ^ b then
      let scaled := n * (10 ^ k / d)
      let ip := scaled / 10 ^ k
      let fracDigits := (padNat k (scaled % 10 ^ k)).data
      let trimmed := (fracDigits.reverse.dropWhile (· == '0')).reverse
      if trimmed.isEmpty then sgn ++ toString ip
      else sgn ++ toString ip ++ "." ++ String.mk trimmed
    else sgn ++ toString n ++ "/" ++ toString d

/-- The encoder's quoting test: spaces or tabs, empty, leading digit,
keyword literals, or date-shaped (length ≥ 10, `-` at positions 4 and
7). -/
def needsQuoting (s : String) : Bool :=
  let cs := s.data
  cs.contains ' ' || cs.contains '\t' || cs.isEmpty ||
    (match cs.head? with
     | some c => isDigitC c
     | none => false) ||
    s == "true" || s == "false" || s == "null" || s == "undefined" ||
    (10 ≤ cs.length && cs.get? 4 == some '-' && cs.get? 7 == some '-')

/-- Body of an emitted block string: each piece of the value split at
`'\n'` on its own line at the content indent. -/
def blockBody (ci : String) : List (List Char) → String
  | [] => ""
  | l :: rest => "\n" ++ ci ++ String.mk l ++ blockBody ci rest

/-- A multi-line string emitted as a block string at indent `ind`. -/
def blockStr (ind : String) (s : String) : String :=
  "\"\"\"" ++ blockBody (ind ++ "  ") (splitLinesC s.data) ++ "\n" ++ ind ++ "\"\"\""

/-- A plain (non-array, non-Date) object value. -/
def isPlainObjV : Val → Bool
  | .obj _ => true
  | _ => false

mutual

/-- Node count of a value tree, used to budget the encoder's fuel. -/
def sizeV : Val → Nat
  | .arr xs => sizeL xs + 1
  | .obj fs => sizeF fs + 1
  | _ => 1

/-- Node count of a list of values. -/
def sizeL : List Val → Nat
  | [] => 1
  | x :: xs => sizeV x + sizeL xs + 1

/-- Node count of object fields. -/
def sizeF : List (String × Val) → Nat
  | [] => 1
  | (_, v) :: fs => sizeV v + sizeF fs + 1

end

mutual

/-- The emitter `slimgifyValue`: scalars direct; multi-line strings as block
strings; other strings quoted when `needsQuoting`; arrays and objects
via their emitters.  `fuel` only bounds the recursion (structurally);
`sizeV`-proportional fuel never runs out. -/
def slimgifyValue (fuel : Nat) (v : Val) (ind : String) : String :=
  match fuel with
  | 0 => ""
  | fuel + 1 =>
    match v with
    | .null => "null"
    | .undef => "undefined"
    | .date ms => toISOString ms
    | .bool b => if b then "true" else "false"
    | .num q => numToString q
    | .str s =>
      if s.data.contains '\n' then blockStr ind s
      else if needsQuoting s then quoteStr s else s
    | .arr xs => slimgifyArray fuel xs ind
    | .obj fs => slimgifyObject fuel fs ind

/-- The emitter `slimgifyArray`: `[]` when empty; multi-line when longer than 3 or
containing a plain object or a multi-line string; inline otherwise. -/
def slimgifyArray (fuel : Nat) (xs : List Val) (ind : String) : String :=
  match fuel with
  | 0 => ""
  | fuel + 1 =>
    if xs.isEmpty then "[]"
    else
      let multi := xs.length > 3 || xs.any (fun it =>
        isPlainObjV it ||
          (match it with
           | .str s => s.data.contains '\n'
           | _ => false))
      if multi then
        "[" ++ slimgifyMLItems fuel xs (ind ++ "  ") ++ "\n" ++ ind ++ "]"
      else "[" ++ slimgifyInlineItems fuel xs ind true ++ "]"

/-- Items of a multi-line array: one per line at the item indent;
multi-line strings as in-array block strings; other strings always
quoted. -/
def slimgifyMLItems (fuel : Nat) (xs : List Val) (itemIndent : String) : String :=
  match fuel with
  | 0 => ""
  | fuel + 1 =>
    match xs with
    | [] => ""
    | item :: rest =>
      "\n" ++ itemIndent ++
        (match item with
         | .str s => if s.data.contains '\n' then blockStr itemIndent s else quoteStr s
         | v => slimgifyValue fuel v itemIndent) ++
        slimgifyMLItems fuel rest itemIndent

/-- Items of an inline array, `", "`-separated; strings always
quoted. -/
def slimgifyInlineItems (fuel : Nat) (xs : List Val) (ind : String) (isFirst : Bool) : String :=
  match fuel with
  | 0 => ""
  | fuel + 1 =>
    match xs with
    | [] => ""
    | item :: rest =>
      (if isFirst then "" else ", ") ++
        (match item with
         | .str s => quoteStr s
         | v => slimgifyValue fuel v ind) ++
        slimgifyInlineItems fuel rest ind false

/-- The emitter `slimgifyObject`: fields in insertion order. -/
def slimgifyObject (fuel : Nat) (fs : Fields) (ind : String) : String :=
  match fuel with
  | 0 => ""
  | fuel + 1 => slimgifyObjGo fuel fs ind true

/-- The field loop of `slimgifyObject`: arrays of plain objects as
repeated-key blocks; singleton arrays as `@key` lines; other arrays via
the array emitter; nested objects recursively; strings block/quoted;
other scalars direct.  A newline precedes every field but the first. -/
def slimgifyObjGo (fuel : Nat) (fields : Fields) (ind : String) (isFirst : Bool) : String :=
  match fuel with
  | 0 => ""
  | fuel + 1 =>
    match fields with
    | [] => ""
    | (key, value) :: rest =>
      (match value with
       | .arr xs =>
         if !xs.isEmpty && xs.all isPlainObjV then
           slimgifyRepeated fuel key ind isFirst xs true
         else if xs.length == 1 then
           (if isFirst then "" else "\n") ++ ind ++ "@" ++ key ++ " " ++
             (match xs with
              | [.str s] =>
                if !s.data.contains '\n' then quoteStr s else blockStr ind s
              | [v] => slimgifyValue fuel v ind
              | _ => "")
         else
           (if isFirst then "" else "\n") ++ ind ++ key ++ " " ++ slimgifyArray fuel xs ind
       | .obj ofs =>
         (if isFirst then "" else "\n") ++ ind ++ key ++ "\n" ++
           slimgifyObject fuel ofs (ind ++ "  ")
       | .str s =>
         (if isFirst then "" else "\n") ++ ind ++ key ++ " " ++
           (if s.data.contains '\n' then blockStr ind s else quoteStr s)
       | v =>
         (if isFirst then "" else "\n") ++ ind ++ key ++ " " ++ slimgifyValue fuel v ind) ++
        slimgifyObjGo fuel rest ind false

/-- Array-of-plain-objects emission: one repeated-key block per element;
a newline precedes every block except the first block of the first
field. -/
def slimgifyRepeated (fuel : Nat) (key : String) (ind : String) (isFirstField : Bool)
    (xs : List Val) (isFirstEl : Bool) : String :=
  match fuel with
  | 0 => ""
  | fuel + 1 =>
    match xs with
    | [] => ""
    | item :: rest =>
      (if isFirstField && isFirstEl then "" else "\n") ++ ind ++ key ++ "\n" ++
        (match item with
         | .obj ofs => slimgifyObject fuel ofs (ind ++ "  ")
         | _ => "") ++
        slimgifyRepeated fuel key ind isFirstField rest false

end

/-- The serializer `slimgify`: empty text for `null`/`undefined`; arrays, dates and
non-objects through `slimgifyValue`; objects through
`slimgifyObject`. -/
def slimgify (v : Val) : String :=
  let fuel := sizeV v * 4 + 16
  match v with
  | .null => ""
  | .undef => ""
  | .arr xs => slimgifyValue fuel (.arr xs) ""
  | .date ms => slimgifyValue fuel (.date ms) ""
  | .obj fs => slimgifyObject fuel fs ""
  | v => slimgifyValue fuel v ""

/-! ## The `toJSON` proxy (`createParsedConfig`) -/

mutual

/-- The copy `convertToJSON`: deep copy with `Date` → ISO string. -/
def convertToJSON : Val → Val
  | .date ms => .str (toISOString ms)
  | .arr xs => .arr (convertL xs)
  | .obj fs => .obj (convertF fs)
  | v => v

/-- Element-wise `convertToJSON` over an array. -/
def convertL : List Val → List Val
  | [] => []
  | x :: xs => convertToJSON x :: convertL xs

/-- Application of `convertToJSON` over own enumerable fields. -/
def convertF : List (String × Val) → List (String × Val)
  | [] => []
  | (k, v) :: fs => (k, convertToJSON v) :: convertF fs

end

/-- The proxy `has` trap: `'toJSON' in proxy` is true; other properties
defer to the target. -/
def proxyHas (fs : Fields) (p : String) : Bool :=
  p == "toJSON" || hasKey fs p

/-- The `toJSON` method of the proxy around a parse result. -/
def proxyToJSON (fs : Fields) : Val :=
  convertToJSON (.obj fs)

mutual

/-- The claims' description of `toJSON`'s result, stated independently
of the implementation: a deep copy of the tree in which every `Date`
value is replaced by its ISO-8601 string and every other value is
unchanged. -/
def specPlainView : Val → Val
  | .date ms => .str (toISOString ms)
  | .arr xs => .arr (specPlainViewL xs)
  | .obj fs => .obj (specPlainViewF fs)
  | v => v

/-- Application of `specPlainView` over array elements. -/
def specPlainViewL : List Val → List Val
  | [] => []
  | x :: xs => specPlainView x :: specPlainViewL xs

/-- Application of `specPlainView` over object fields. -/
def specPlainViewF : List (String × Val) → List (String × Val)
  | [] => []
  | (k, v) :: fs => (k, specPlainView v) :: specPlainViewF fs

end

/-! ## Helper lemmas -/

/-- A successful key lookup implies `hasOwnProperty`. -/
theorem hasKey_of_lookup (fs : Fields) (k : String) (w : Val)
    (h : lookupKey fs k = some w) : hasKey fs k = true := by
  induction fs with
  | nil => simp [lookupKey] at h
  | cons p rest ih =>
    obtain ⟨k', v⟩ := p
    show (k' == k || hasKey rest k) = true
    simp only [lookupKey] at h
    by_cases hk : (k' == k) = true
    · simp [hk]
    · rw [if_neg hk] at h
      simp [hk, ih h]

/-- A key occurring among the field names implies `hasOwnProperty`. -/
theorem hasKey_of_mem (fs : Fields) (k : String)
    (h : k ∈ fs.map Prod.fst) : hasKey fs k = true := by
  induction fs with
  | nil => simp at h
  | cons p rest ih =>
    obtain ⟨k', v⟩ := p
    show (k' == k || hasKey rest k) = true
    simp only [List.map_cons, List.mem_cons] at h
    rcases h with h | h
    · simp [h]
    · simp [ih h]

/-- The scan `lastIdxOf` misses a character that does not occur. -/
theorem lastIdxOf_eq_none (c : Char) (l : List Char) (h : c ∉ l) :
    lastIdxOf c l = none := by
  induction l with
  | nil => rfl
  | cons x xs ih =>
    simp only [List.mem_cons, not_or] at h
    simp [lastIdxOf, ih h.2, beq_eq_false_iff_ne.mpr (fun he => h.1 he.symm)]

/-! ## Claim theorems -/

/-- A successful unwrap yields an array value. -/
theorem importUnwrap_ok_arr (fields : Fields) (v : Val)
    (h : importUnwrap fields = .ok v) : ∃ xs, v = .arr xs := by
  simp only [importUnwrap] at h
  split at h
  · split at h
    · simp only [Except.ok.injEq] at h
      exact ⟨_, h.symm⟩
    · simp at h
  · simp at h

/-- C1: for every decoder-producible tree `T`, `parse(slimgify(T))`
succeeds and is value-equal to `T` modulo the two documented lossy
cases, in particular for a key whose value is a singleton array of a
non-object.  This fails on the code: `{tags: ["only"]}` is producible
(from `[]tags "only"`), the encoder emits `@tags "only"`, and re-parsing
that line fails key validation with `Invalid key format: "@tags"` —
the round trip throws instead of succeeding. -/
theorem c1_roundtrip_bug :
    parseTop "[]tags \"only\"\n" = .ok [("tags", .arr [.str "only"])] ∧
    slimgify (.obj [("tags", .arr [.str "only"])]) = "@tags \"only\"" ∧
    parseTop "@tags \"only\"" =
      .error (mkPError "Invalid key format: \"@tags\"" (some 0) (some "@tags \"only\"")) :=
  ⟨rfl, rfl, rfl⟩

/-- C2 counterexample: after `key [1, 2]` then `key "x"` the stored
value is `[1, 2, "x"]` (the second occurrence is appended into the
existing array), not the claimed `[[1, 2], "x"]`. -/
theorem c2_cex :
    parseTop "key [1, 2]\nkey \"x\"" =
      .ok [("key", .arr [.num 1, .num 2, .str "x"])] ∧
    Val.arr [.num 1, .num 2, .str "x"] ≠
      Val.arr [.arr [.num 1, .num 2], .str "x"] := by
  refine ⟨rfl, fun h => ?_⟩
  injection h with h1
  injection h1 with h2 _
  cases h2

/-- C2 (amended): a first occurrence without `[]` is stored as-is; a
second occurrence replaces the stored value by `[first, second]` only
when the stored value is not an array (scalars and objects); when the
stored value is itself an array the new value is appended into it, so
`key [1, 2]` then `key "x"` yields `[1, 2, "x"]`. -/
theorem c2_merge (parent : Fields) (key : String) (force : Bool) (v w : Val)
    (xs : List Val) :
    (hasKey parent key = false → attachValue parent key false v = parent ++ [(key, v)]) ∧
    (lookupKey parent key = some w → (∀ ys, w ≠ .arr ys) →
      attachValue parent key force v = setKey parent key (.arr [w, v])) ∧
    (lookupKey parent key = some (.arr xs) →
      attachValue parent key force v = setKey parent key (.arr (xs ++ [v]))) ∧
    parseTop "key [1, 2]\nkey \"x\"" =
      .ok [("key", .arr [.num 1, .num 2, .str "x"])] := by
  refine ⟨fun h => ?_, fun h hw => ?_, fun h => ?_, rfl⟩
  · simp [attachValue, h]
  · rw [attachValue, if_pos (hasKey_of_lookup _ _ _ h), h]
    cases w with
    | arr ys => exact absurd rfl (hw ys)
    | null => rfl
    | undef => rfl
    | bool b => rfl
    | num q => rfl
    | str s => rfl
    | date ms => rfl
    | obj fs => rfl
  · rw [attachValue, if_pos (hasKey_of_lookup _ _ _ h), h]

/-- C2 witness: the three merge behaviours at concrete inputs. -/
theorem c2_merge_w :
    attachValue [] "k" false (.num 1) = [("k", .num 1)] ∧
    attachValue [("k", .num 1)] "k" false (.str "x") = [("k", .arr [.num 1, .str "x"])] ∧
    attachValue [("k", .arr [.num 1, .num 2])] "k" false (.str "x") =
      [("k", .arr [.num 1, .num 2, .str "x"])] :=
  ⟨(c2_merge [] "k" false (.num 1) .null []).1 rfl,
   (c2_merge [("k", .num 1)] "k" false (.str "x") (.num 1) []).2.1 rfl
     (fun ys h => by cases h),
   (c2_merge [("k", .arr [.num 1, .num 2])] "k" false (.str "x") .null
     [.num 1, .num 2]).2.2.1 rfl⟩

/-- C4 counterexample: in a quoted token, a backslash before a character
outside the escape class is kept verbatim: `"a\qb"` decodes to `a\qb`,
not to the claimed `aqb`. -/
theorem c4_cex :
    parseValueTop "\"a\\qb\"" = .ok (.str "a\\qb") ∧
    Val.str "a\\qb" ≠ Val.str "aqb" := by
  refine ⟨rfl, fun h => ?_⟩
  injection h with h1
  exact absurd h1 (by decide)

/-- A non-backslash head is emitted unchanged by the unescape scan. -/
theorem unescape_cons_ne (c : Char) (rest : List Char) (hc : c ≠ '\\') :
    unescape (c :: rest) = c :: unescape rest := by
  rw [unescape.eq_def]
  split
  · rename_i heq
    cases heq
  · rename_i c' rest' heq
    injection heq with h1 _
    exact absurd h1 hc
  · rename_i c' rest' heq
    injection heq with h1 h2
    rw [h1, h2]

/-- C4 (amended): the escapes `\n \r \t \" \' \\` decode to their
respective characters; a backslash followed by any other character is
left verbatim (the backslash is preserved, not dropped). -/
theorem c4_unescape (c : Char) (rest : List Char) :
    (escClass c = true → unescape ('\\' :: c :: rest) = escMap c :: unescape rest) ∧
    (escClass c = false → unescape ('\\' :: c :: rest) = '\\' :: c :: unescape rest) ∧
    parseValueTop "\"a\\qb\"" = .ok (.str "a\\qb") ∧
    parseValueTop "\"a\\nb\"" = .ok (.str "a\nb") := by
  refine ⟨fun h => ?_, fun h => ?_, rfl, rfl⟩
  · simp [unescape, h]
  · have hc : c ≠ '\\' := fun he => by rw [he] at h; exact absurd h (by decide)
    simp [unescape, h, unescape_cons_ne c rest hc]

/-- C4 witness: a class escape decodes, a non-class escape survives. -/
theorem c4_unescape_w :
    unescape ('\\' :: 'n' :: "x".data) = '\n' :: "x".data ∧
    unescape ('\\' :: 'q' :: "x".data) = '\\' :: 'q' :: "x".data :=
  ⟨(c4_unescape 'n' "x".data).1 rfl, (c4_unescape 'q' "x".data).2.1 rfl⟩

/-- C5 counterexample: the `ParseError` raised for `bad@key` on the
third input line stores the 0-based line index 2 in its `lineNumber`
field, not the claimed 1-based 3. -/
theorem c5_cex :
    parseTop "\nvalid \"ok\"\nbad@key \"x\"\n" =
      .error (mkPError "Invalid key format: \"bad@key\"" (some 2) (some "bad@key \"x\"")) ∧
    (mkPError "Invalid key format: \"bad@key\"" (some 2) (some "bad@key \"x\"")).lineNumber ≠
      some 3 :=
  ⟨rfl, by decide⟩

/-- C5 (amended): decode errors at a known position carry the 0-based
line index in the `lineNumber` field and the raw offending line in
`line`; the 1-based number appears in the rendered message.  For the
given input the error stores index 2, line `bad@key "x"`, and a message
ending in `at line 3: "bad@key "x""`. -/
theorem c5_error_position :
    parseTop "\nvalid \"ok\"\nbad@key \"x\"\n" =
      .error ⟨"Invalid key format: \"bad@key\" at line 3: \"bad@key \"x\"\"",
        some 2, some "bad@key \"x\""⟩ ∧
    (∀ (msg : String) (n : Nat) (l : String),
      mkPError msg (some n) (some l) =
        ⟨msg ++ " at line " ++ toString (n + 1) ++ ": \"" ++ l ++ "\"",
          some n, some l⟩) :=
  ⟨rfl, fun _ _ _ => rfl⟩

/-- C9: the inline-array branch takes the text strictly between the `[`
and the last `]` on the line and silently discards the remainder:
`key [1, 2] extra` parses to `{key: [1, 2]}`, and in general the
backwards scan stops at the last `]`. -/
theorem c9_inline_trailing (pre post : List Char) (h : ']' ∉ post) :
    lastIdxOf ']' (pre ++ ']' :: post) = some pre.length ∧
    parseTop "key [1, 2] extra" = .ok [("key", .arr [.num 1, .num 2])] := by
  refine ⟨?_, rfl⟩
  induction pre with
  | nil => simp [lastIdxOf, lastIdxOf_eq_none ']' post h]
  | cons x xs ih => simp [lastIdxOf, ih]

/-- C9 witness: the scan over `1, 2] extra` finds index 4. -/
theorem c9_inline_trailing_w :
    lastIdxOf ']' ("1, 2".data ++ ']' :: " extra".data) = some 4 ∧
    parseTop "key [1, 2] extra" = .ok [("key", .arr [.num 1, .num 2])] :=
  c9_inline_trailing "1, 2".data " extra".data (by decide)

/-- C8: the block-string collector strips the detected common leading
indent, joins the body with newlines and no trailing newline (concrete
scenario), and treats any non-blank line at indent greater than the
header — including a line reading exactly `"""` — as content rather
than a terminator. -/
theorem c8_block_string (header : Nat) (b : Option Nat) (acc : List (List Char))
    (idx : Nat) (line : List Char) (rest : List (List Char))
    (hcontent : (line.dropWhile (· == ' ')).isEmpty = false)
    (hind : header < countIndent line) :
    (∃ b' piece, collectBlock header b acc idx (line :: rest) =
      collectBlock header (some b') (acc ++ [piece]) (idx + 1) rest) ∧
    parseTop "user\n  name \"John\"\n  bio \"\"\"\n    Line 1\n    Line 2\n  \"\"\"\n" =
      .ok [("user", .obj [("name", .str "John"), ("bio", .str "Line 1\nLine 2")])] := by
  refine ⟨⟨b.getD (countIndent line),
    if countIndent line ≥ b.getD (countIndent line) then line.drop (b.getD (countIndent line))
    else line.drop (countIndent line), ?_⟩, rfl⟩
  rw [collectBlock.eq_def]
  simp only [hcontent, Bool.false_eq_true, if_false,
    decide_eq_false (Nat.not_le.mpr hind), Bool.false_and]

/-- C8 witness: a `"""` line at indent 4 inside a block with header
indent 2 is collected as content, and the concrete example decodes. -/
theorem c8_block_string_w :
    (∃ b' piece, collectBlock 2 none [] 3 ["    \"\"\"".data] =
      collectBlock 2 (some b') ([] ++ [piece]) 4 []) ∧
    parseTop "user\n  name \"John\"\n  bio \"\"\"\n    Line 1\n    Line 2\n  \"\"\"\n" =
      .ok [("user", .obj [("name", .str "John"), ("bio", .str "Line 1\nLine 2")])] :=
  c8_block_string 2 none [] 3 "    \"\"\"".data [] (by decide) (by decide)

/-- C6: in multi-line array mode, a non-blank non-comment line whose
first non-space character is `]` at indent ≤ the array indent closes the
array with the decoder resuming on the following line; any other such
line at indent ≤ the array indent aborts the collection, upon which the
decoder fails with the `UnclosedArray` error and no partial result. -/
theorem c6_multiline_close (fuel aIdent idx : Nat) (items : List (List Char))
    (line : List Char) (rest : List (List Char))
    (hcontent : (line.dropWhile (· == ' ')).isEmpty = false)
    (hcomment : isCommentC (line.dropWhile (· == ' ')) = false)
    (hind : countIndent line ≤ aIdent) :
    ((line.dropWhile (· == ' ')).head? = some ']' →
      collectML (fuel + 1) aIdent items idx (line :: rest) = some (items, idx + 1, rest)) ∧
    ((line.dropWhile (· == ' ')).head? ≠ some ']' →
      collectML (fuel + 1) aIdent items idx (line :: rest) = none) ∧
    (∀ (fs : FileSys) (bd : String) (top : Frame) (stk : List Frame) (kidx : Nat)
        (more : List (List Char)),
      collectML fuel 0 [] (kidx + 1) more = none →
      parseLines (fuel + 1) fs bd top stk kidx ("items [".data :: more) =
        .error (mkPError "Unclosed array: missing closing bracket \"]\"" (some kidx)
          (some "items ["))) := by
  refine ⟨fun hhead => ?_, fun hhead => ?_, fun fs bd top stk kidx more h => ?_⟩
  · simp [collectML, hcontent, hcomment, hhead, hind]
  · simp [collectML, hcontent, hcomment, hhead, hind]
  · simp +decide [parseLines, h, lastIdxOf, countIndent]

/-- C6 witness: a bare `]` closes, a dedented item line aborts, and the
decoder raises `UnclosedArray` for the aborted array. -/
theorem c6_multiline_close_w :
    collectML 6 0 [] 1 ["]".data] = some ([], 2, []) ∧
    collectML 6 0 [] 1 ["x 1".data] = none ∧
    parseLines 6 [] "/" ⟨-1, "", []⟩ [] 0 ("items [".data :: ["x 1".data]) =
      .error (mkPError "Unclosed array: missing closing bracket \"]\"" (some 0)
        (some "items [")) :=
  ⟨(c6_multiline_close 5 0 1 [] "]".data [] (by decide) (by decide) (by decide)).1 (by decide),
   (c6_multiline_close 5 0 1 [] "x 1".data [] (by decide) (by decide) (by decide)).2.1 (by decide),
   (c6_multiline_close 5 0 0 [] "x 1".data [] (by decide) (by decide) (by decide)).2.2
     [] "/" ⟨-1, "", []⟩ [] 0 ["x 1".data] rfl⟩

mutual

/-- The copy `convertToJSON` agrees with the claims' plain-view description. -/
theorem conv_eq_spec : ∀ v : Val, convertToJSON v = specPlainView v
  | .null => rfl
  | .undef => rfl
  | .bool _ => rfl
  | .num _ => rfl
  | .str _ => rfl
  | .date _ => rfl
  | .arr xs => by rw [convertToJSON, specPlainView, conv_eq_specL xs]
  | .obj fs => by rw [convertToJSON, specPlainView, conv_eq_specF fs]

/-- Element-wise agreement over arrays. -/
theorem conv_eq_specL : ∀ xs : List Val, convertL xs = specPlainViewL xs
  | [] => rfl
  | x :: xs => by rw [convertL, specPlainViewL, conv_eq_spec x, conv_eq_specL xs]

/-- Field-wise agreement over objects. -/
theorem conv_eq_specF : ∀ fs : List (String × Val), convertF fs = specPlainViewF fs
  | [] => rfl
  | (k, v) :: fs => by rw [convertF, specPlainViewF, conv_eq_spec v, conv_eq_specF fs]

end

/-- C10: the proxy around a parse result reports `toJSON` present to the
`in` operator, exposes it through a non-enumerable descriptor, keeps it
out of `Object.keys` (which lists exactly the parsed keys), and its
`toJSON` performs a deep copy replacing every `Date` by its ISO-8601
string and leaving every other value unchanged. -/
theorem c10_proxy_tojson :
    (∀ fs : Fields, proxyHas fs "toJSON" = true) ∧
    (∀ fs : Fields, proxyDescr fs "toJSON" = some ⟨false, true, false⟩) ∧
    (∀ fs : Fields, "toJSON" ∉ fs.map Prod.fst → jsObjectKeys fs = fs.map Prod.fst) ∧
    (∀ v : Val, convertToJSON v = specPlainView v) := by
  refine ⟨fun fs => rfl, fun fs => rfl, fun fs h => ?_, conv_eq_spec⟩
  unfold jsObjectKeys proxyOwnKeys
  apply List.filter_eq_self.mpr
  intro k hk
  have hne : (k == "toJSON") = false := by
    apply beq_eq_false_iff_ne.mpr
    intro he
    exact h (he ▸ hk)
  simp [proxyDescr, hne, hasKey_of_mem fs k hk]

/-- Syntactic consequences of a date-grammar match: length at least 10,
a leading digit, and `-` at positions 4 and 7. -/
theorem dateGrammar_shape (t : List Char) (c : DateC) (h : dateGrammar t = some c) :
    10 ≤ t.length ∧ t.get? 4 = some '-' ∧ t.get? 7 = some '-' ∧
      ∃ c0, t.head? = some c0 ∧ isDigitC c0 = true := by
  rw [dateGrammar.eq_def] at h
  split at h
  · rename_i y1 y2 y3 y4 m1 m2 d1 d2 rest
    split at h
    · rename_i hg
      simp only [Bool.and_eq_true] at hg
      exact ⟨by simp, rfl, rfl, y1, rfl, hg.1.1.1.1.1.1.1⟩
    · cases h
  · cases h

/-- A date-grammar token is rejected by the `Number()` model (the `-`
after the year stops the number grammar). -/
theorem dateGrammar_not_number (t : List Char) (c : DateC) (h : dateGrammar t = some c) :
    jsNumber t = none := by
  rw [dateGrammar.eq_def] at h
  split at h
  · rename_i y1 y2 y3 y4 m1 m2 d1 d2 rest
    split at h
    · rename_i hg
      simp only [Bool.and_eq_true] at hg
      obtain ⟨⟨⟨⟨⟨⟨⟨h1, h2⟩, h3⟩, h4⟩, h5⟩, h6⟩, h7⟩, h8⟩ := hg
      have hy1p : y1 ≠ '+' := fun he => by rw [he] at h1; exact absurd h1 (by decide)
      have hy1m : y1 ≠ '-' := fun he => by rw [he] at h1; exact absurd h1 (by decide)
      have htake : takeDigits (y1 :: y2 :: y3 :: y4 :: '-' :: m1 :: m2 :: '-' :: d1 :: d2 :: rest) =
          some (digitsToNat [y1, y2, y3, y4], 4, '-' :: m1 :: m2 :: '-' :: d1 :: d2 :: rest) := by
        have hdash : isDigitC '-' = false := rfl
        simp [takeDigits, List.takeWhile, h1, h2, h3, h4, hdash]
      rw [jsNumber]
      split
      · rfl
      · rename_i ip len cs2 heq
        rw [htake] at heq
        injection heq with he
        simp only [Prod.mk.injEq] at he
        obtain ⟨he1, he2, he3⟩ := he
        subst he3
        rfl
      · intro r1 he
        injection he with he1 _
        exact hy1p he1
      · intro r1 he
        injection he with he1 _
        exact hy1m he1
    · cases h
  · cases h

/-- C3, only-if direction: a `Date` result implies the shape guard and
a valid grammar instant. -/
theorem c3aux1 (fuel : Nat) (fs : FileSys) (bd : String) (t : List Char)
    (lnE : Option Nat) (lineE : Option String) (ms : Int)
    (h : parseValue (fuel + 1) fs bd t lnE lineE = .ok (.date ms)) :
    10 ≤ t.length ∧ (∃ c0, t.head? = some c0 ∧ isDigitC c0 = true) ∧
    t.get? 4 = some '-' ∧ t.get? 7 = some '-' ∧ jsDate t = some ms := by
  simp only [parseValue] at h
  split at h
  · simp at h
  · split at h
    · simp at h
    · split at h
      · simp at h
      · split at h
        · simp at h
        · split at h
          · -- import branch
            split at h
            · rename_i v heq
              -- heq : res = .ok v, h : .ok v = .ok (.date ms)
              simp only [Except.ok.injEq] at h
              subst h
              split at heq
              · simp at heq
              · rename_i fields heq2
                split at heq
                · -- unwrap
                  obtain ⟨xs, hxs⟩ := importUnwrap_ok_arr fields _ heq
                  cases hxs
                · simp at heq
            · simp at h
          · -- scalar branches
            split at h
            · simp at h
            · split at h
              · rename_i ms0 heq
                simp only [Except.ok.injEq, Val.date.injEq] at h
                subst h
                split at heq
                · rename_i c0 hc0
                  split at heq
                  · rename_i hguard
                    simp only [Bool.and_eq_true] at hguard
                    obtain ⟨⟨hg1, hg2⟩, hg3⟩ := hguard
                    have hjd := heq
                    rw [jsDate] at heq
                    split at heq
                    · rename_i c hgr
                      have shape := dateGrammar_shape t c hgr
                      exact ⟨shape.1, shape.2.2.2, shape.2.1, shape.2.2.1, hjd⟩
                    · simp at heq
                  · simp at heq
                · simp at heq
              · split at h
                · split at h <;> simp at h
                · simp at h

/-- C3, invalid-instant direction: a grammar-shaped token whose
components are out of range decodes as the plain string. -/
theorem c3aux2 (fuel : Nat) (fs : FileSys) (bd : String) (t : List Char)
    (lnE : Option Nat) (lineE : Option String) (c : DateC)
    (hg : dateGrammar t = some c) (hv : dcValid c = false) :
    parseValue (fuel + 1) fs bd t lnE lineE = .ok (.str (String.mk t)) := by
  have hnum := dateGrammar_not_number t c hg
  have hjd : jsDate t = none := by
    simp [jsDate, hg, hv]
  obtain ⟨hlen, hget4, hget7, c0, hhead, hdig⟩ := dateGrammar_shape t c hg
  simp only [parseValue]
  have e1 : (t == "null".data) = false := by
    apply beq_eq_false_iff_ne.mpr
    intro he
    have := congrArg List.length he
    rw [he] at hlen
    simp at hlen
  have e2 : (t == "undefined".data) = false := by
    apply beq_eq_false_iff_ne.mpr
    intro he
    rw [he] at hlen
    simp at hlen
  have e3 : (t == "true".data) = false := by
    apply beq_eq_false_iff_ne.mpr
    intro he
    rw [he] at hlen
    simp at hlen
  have e4 : (t == "false".data) = false := by
    apply beq_eq_false_iff_ne.mpr
    intro he
    rw [he] at hlen
    simp at hlen
  have e5 : ((some c0 : Option Char) == some '@') = false := by
    apply beq_eq_false_iff_ne.mpr
    intro he
    injection he with he1
    rw [he1] at hdig
    exact absurd hdig (by decide)
  have e6 : ((some c0 : Option Char) == some '"') = false := by
    apply beq_eq_false_iff_ne.mpr
    intro he
    injection he with he1
    rw [he1] at hdig
    exact absurd hdig (by decide)
  have e7 : ((some c0 : Option Char) == some '\'') = false := by
    apply beq_eq_false_iff_ne.mpr
    intro he
    injection he with he1
    rw [he1] at hdig
    exact absurd hdig (by decide)
  have e8 : (isDigitC c0 || c0 == '-' || c0 == '+') = true := by simp [hdig]
  have h4 : t[4]? = some '-' := by simpa using hget4
  have e9 : (isDigitC c0 && decide (10 ≤ t.length) && t.get? 4 == some '-') = true := by
    simp [hdig, hlen, h4]
  simp only [hhead, e1, e2, e3, e4, e5, e6, e7, e8, e9, hnum, hjd, Bool.false_eq_true,
    if_false, if_true, Bool.false_and, Bool.and_false, Bool.false_or, Bool.or_self]

/-- C3: the scalar classifier produces a `Date` only for tokens of
length ≥ 10 whose first character is a digit, whose characters at
positions 4 and 7 are both `-`, and which match the date grammar as a
valid instant; a grammar-shaped token that is an invalid instant
decodes as a plain string. -/
theorem c3_date_classifier (fuel : Nat) (fs : FileSys) (bd : String) (t : List Char)
    (lnE : Option Nat) (lineE : Option String) :
    (∀ ms, parseValue (fuel + 1) fs bd t lnE lineE = .ok (.date ms) →
      10 ≤ t.length ∧ (∃ c0, t.head? = some c0 ∧ isDigitC c0 = true) ∧
      t.get? 4 = some '-' ∧ t.get? 7 = some '-' ∧ jsDate t = some ms) ∧
    (∀ c, dateGrammar t = some c → dcValid c = false →
      parseValue (fuel + 1) fs bd t lnE lineE = .ok (.str (String.mk t))) :=
  ⟨fun ms h => c3aux1 fuel fs bd t lnE lineE ms h,
   fun c hg hv => c3aux2 fuel fs bd t lnE lineE c hg hv⟩

/-- C3 witness: `2025-01-01` classifies as a `Date` with the claimed
shape; `2025-02-30` (invalid instant) decodes as the plain string. -/
theorem c3_date_classifier_w :
    (10 ≤ "2025-01-01".data.length ∧
      (∃ c0, "2025-01-01".data.head? = some c0 ∧ isDigitC c0 = true) ∧
      "2025-01-01".data.get? 4 = some '-' ∧ "2025-01-01".data.get? 7 = some '-' ∧
      jsDate "2025-01-01".data = some 1735689600000) ∧
    parseValue 12 [] "/" "2025-02-30".data none none = .ok (.str "2025-02-30") :=
  ⟨(c3_date_classifier 11 [] "/" "2025-01-01".data none none).1 1735689600000 rfl,
   (c3_date_classifier 11 [] "/" "2025-02-30".data none none).2 ⟨2025, 2, 30, 0, 0, 0, 0, 0⟩ rfl rfl⟩

/-- C10 witness: the proxy facts at concrete field lists. -/
theorem c10_proxy_tojson_w :
    proxyHas [("a", Val.num 1)] "toJSON" = true ∧
    proxyDescr [("a", Val.num 1)] "toJSON" = some ⟨false, true, false⟩ ∧
    jsObjectKeys [("a", Val.num 1), ("b", Val.null)] = ["a", "b"] ∧
    convertToJSON (.date 1735689600000) = specPlainView (.date 1735689600000) :=
  ⟨c10_proxy_tojson.1 _, c10_proxy_tojson.2.1 _,
   (c10_proxy_tojson.2.2.1 [("a", Val.num 1), ("b", Val.null)] (by decide)).trans rfl,
   c10_proxy_tojson.2.2.2 _⟩


/-- Stripping the surrounding quotes of an import path token. -/
theorem stripQuotes_quoted (cs : List Char) :
    stripQuotes ('"' :: (cs ++ ['"'])) = cs := by
  have h2 : ('"' :: (cs ++ ['"'])).getLast? = some '"' := by
    rw [← List.cons_append, List.getLast?_concat]
  rw [stripQuotes, h2]
  simp

/-- Errors built by `mkPError` keep the position arguments they were constructed with. -/
theorem mkPError_fields (msg : String) (ln : Option Nat) (line : Option String) :
    (mkPError msg ln line).lineNumber = ln ∧ (mkPError msg ln line).line = line := by
  cases ln <;> cases line <;> exact ⟨rfl, rfl⟩

/-- Character decomposition of a built `@@"path"` token. -/
theorem string_append_data (cp : String) :
    ("@@\"" ++ cp ++ "\"").data = '@' :: '@' :: '"' :: (cp.data ++ ['"']) := rfl

/-- The classifier on an `@@"path"` token: read and recursively parse
the file, unwrap, and wrap any failure into a `ParseError` positioned at
the import site. -/
theorem parseValue_unwrap_eq (fuel : Nat) (fs : FileSys) (bd cp : String)
    (lnE : Option Nat) (lineE : Option String) :
    parseValue (fuel + 1) fs bd ("@@\"" ++ cp ++ "\"").data lnE lineE =
      (match (match importResolve fuel fs bd cp with
              | .error m => (.error m : Except String Val)
              | .ok fields => importUnwrap fields) with
       | .ok v => .ok v
       | .error m =>
         .error (mkPError ("Failed to import file \"" ++ cp ++ "\": " ++ m) lnE lineE)) := by
  rw [string_append_data]
  show (match (match importResolve fuel fs bd
          (String.mk (stripQuotes ('"' :: (cp.data ++ ['"'])))) with
        | .error m => (.error m : Except String Val)
        | .ok fields => importUnwrap fields) with
      | .ok v => Except.ok v
      | .error m =>
        .error (mkPError ("Failed to import file \"" ++
          String.mk (stripQuotes ('"' :: (cp.data ++ ['"']))) ++ "\": " ++ m) lnE lineE)) = _
  rw [stripQuotes_quoted]



/-- C7 counterexample: importing a file whose root has two bindings,
one literally named `toJSON`, succeeds with the other binding's array —
the proxy hides `toJSON` from `Object.keys`, so the code does not
require the parsed root to have exactly one key. -/
theorem c7_cex :
    importResolve 8 [("/d/t.sg", "toJSON 1\na [1, 2]")] "/d" "t.sg" =
      .ok [("toJSON", Val.num 1), ("a", Val.arr [Val.num 1, Val.num 2])] ∧
    [("toJSON", Val.num 1), ("a", Val.arr [Val.num 1, Val.num 2])].length ≠ 1 ∧
    parseValue 9 [("/d/t.sg", "toJSON 1\na [1, 2]")] "/d" ("@@\"" ++ "t.sg" ++ "\"").data
        (some 0) (some "k @@\"t.sg\"") = .ok (.arr [Val.num 1, Val.num 2]) :=
  ⟨rfl, by decide, rfl⟩

/-- C7 (amended): for an `@@"path"` import token, success requires
the imported root to expose exactly one key through `Object.keys` — a
root binding literally named `toJSON` is hidden by the parse proxy's
non-enumerable descriptor and does not count — and that key's value
(read through the proxy) must be an array, which becomes the value; any
I/O, parse or shape failure is rethrown as an error whose message names
the imported path and the underlying reason and whose `lineNumber` and
`line` are those of the import site in the outer file. -/
theorem c7_import_unwrap (fuel : Nat) (fs : FileSys) (bd cp : String)
    (lnE : Option Nat) (lineE : Option String) :
    (∀ v, parseValue (fuel + 1) fs bd ("@@\"" ++ cp ++ "\"").data lnE lineE = .ok v →
      ∃ flds k xs, importResolve fuel fs bd cp = .ok flds ∧
        jsObjectKeys flds = [k] ∧ lookupKey flds k = some (.arr xs) ∧ v = .arr xs) ∧
    (∀ e, parseValue (fuel + 1) fs bd ("@@\"" ++ cp ++ "\"").data lnE lineE = .error e →
      e.lineNumber = lnE ∧ e.line = lineE ∧
      ∃ m, e = mkPError ("Failed to import file \"" ++ cp ++ "\": " ++ m) lnE lineE) ∧
    (∀ m, importResolve fuel fs bd cp = .error m →
      parseValue (fuel + 1) fs bd ("@@\"" ++ cp ++ "\"").data lnE lineE =
        .error (mkPError ("Failed to import file \"" ++ cp ++ "\": " ++ m) lnE lineE)) ∧
    (∀ flds m, importResolve fuel fs bd cp = .ok flds → importUnwrap flds = .error m →
      parseValue (fuel + 1) fs bd ("@@\"" ++ cp ++ "\"").data lnE lineE =
        .error (mkPError ("Failed to import file \"" ++ cp ++ "\": " ++ m) lnE lineE)) := by
  refine ⟨fun v h => ?_, fun e h => ?_, fun m h => ?_, fun flds m h1 h2 => ?_⟩
  · rw [parseValue_unwrap_eq] at h
    rcases him : importResolve fuel fs bd cp with m | flds
    · rw [him] at h
      simp at h
    · rw [him] at h
      dsimp only at h
      rcases hu : importUnwrap flds with m | v0
      · rw [hu] at h
        simp at h
      · rw [hu] at h
        simp only [Except.ok.injEq] at h
        subst h
        simp only [importUnwrap] at hu
        split at hu
        · rename_i k hkeys
          split at hu
          · rename_i xs hlook
            simp only [Except.ok.injEq] at hu
            exact ⟨flds, k, xs, rfl, hkeys, hlook, hu.symm⟩
          · simp at hu
        · simp at hu
  · rw [parseValue_unwrap_eq] at h
    rcases him : importResolve fuel fs bd cp with m | flds
    · rw [him] at h
      simp only [Except.error.injEq] at h
      subst h
      exact ⟨(mkPError_fields _ _ _).1, (mkPError_fields _ _ _).2, m, rfl⟩
    · rw [him] at h
      dsimp only at h
      rcases hu : importUnwrap flds with m | v0
      · rw [hu] at h
        simp only [Except.error.injEq] at h
        subst h
        exact ⟨(mkPError_fields _ _ _).1, (mkPError_fields _ _ _).2, m, rfl⟩
      · rw [hu] at h
        simp at h
  · rw [parseValue_unwrap_eq, h]
  · rw [parseValue_unwrap_eq, h1]
    dsimp only
    rw [h2]

/-- C7 witness: a successful unwrap import of a single-array-root file
(with the key visible to `Object.keys` and the array read through the
proxy), and the wrapped shape error for a two-key root, carrying the
position of the import site. -/
theorem c7_import_unwrap_w :
    (∃ flds k xs, importResolve 8 [("/d/arr.sg", "xs [1, 2]")] "/d" "arr.sg" = .ok flds ∧
        jsObjectKeys flds = [k] ∧ lookupKey flds k = some (.arr xs) ∧
        (Val.arr [Val.num 1, Val.num 2] : Val) = .arr xs) ∧
    parseValue 9 [("/d/two.sg", "a 1\nb 2")] "/d" ("@@\"" ++ "two.sg" ++ "\"").data
        (some 0) (some "k @@\"two.sg\"") =
      .error (mkPError ("Failed to import file \"" ++ "two.sg" ++ "\": " ++
        "Imported file must have exactly one root key to use \"@@\" syntax, found 2 keys")
        (some 0) (some "k @@\"two.sg\"")) :=
  ⟨(c7_import_unwrap 8 [("/d/arr.sg", "xs [1, 2]")] "/d" "arr.sg" (some 0) (some "l")).1
      (Val.arr [Val.num 1, Val.num 2]) rfl,
   (c7_import_unwrap 8 [("/d/two.sg", "a 1\nb 2")] "/d" "two.sg" (some 0)
      (some "k @@\"two.sg\"")).2.2.2 [("a", Val.num 1), ("b", Val.num 2)]
      "Imported file must have exactly one root key to use \"@@\" syntax, found 2 keys" rfl rfl⟩

end Slimgym
